import Mathlib

/-!
Verification of the custom-fields query and backward-compatibility subsystem
of the task-master repository.

The JavaScript source is shallowly embedded: JavaScript values are modelled by
the inductive type `JSVal` (objects are association lists in property-insertion
order, mirroring JS own-property order), statements that can throw are modelled
in `Except String`, and each exported source function is translated definition
by definition.  Where two copies of a function exist in the repository
(`filterTasks` appears both in the current queryTranslator module and in
`src/scripts/modules/utils/queryTranslator.js`), both are embedded under
distinct names.
-/

namespace TaskMaster

/-- Model of a JavaScript value as used by the tasks data model: `null`,
`undefined`, booleans, numbers (task ids and counts are integers throughout the
repository, so `Int` suffices), strings, arrays and plain objects.  Object
fields are kept as an association list in property-insertion order, exactly the
order JS object literals and spreads produce. -/
inductive JSVal where
  | null : JSVal
  | undefined : JSVal
  | bool : Bool → JSVal
  | num : Int → JSVal
  | str : String → JSVal
  | arr : List JSVal → JSVal
  | obj : List (String × JSVal) → JSVal
deriving Repr

/-- Decidable equality for `JSVal`, by structural recursion. -/
def JSVal.beq : JSVal → JSVal → Bool
  | .null, .null => true
  | .undefined, .undefined => true
  | .bool a, .bool b => a == b
  | .num a, .num b => a == b
  | .str a, .str b => a == b
  | .arr xs, .arr ys => beqList xs ys
  | .obj xs, .obj ys => beqFields xs ys
  | _, _ => false
where
  beqList : List JSVal → List JSVal → Bool
    | [], [] => true
    | x :: xs, y :: ys => JSVal.beq x y && beqList xs ys
    | _, _ => false
  beqFields : List (String × JSVal) → List (String × JSVal) → Bool
    | [], [] => true
    | (k, x) :: xs, (l, y) :: ys => k == l && JSVal.beq x y && beqFields xs ys
    | _, _ => false

instance : BEq JSVal := ⟨JSVal.beq⟩

/-- JavaScript truthiness: `null`, `undefined`, `false`, `0`, and the empty
string are falsy; every object and array (including `{}` and `[]`) is truthy. -/
def truthy : JSVal → Bool
  | .null => false
  | .undefined => false
  | .bool b => b
  | .num n => n != 0
  | .str s => s ≠ ""
  | .arr _ => true
  | .obj _ => true

/-- Tests whether a value is a plain object. -/
def isObj : JSVal → Bool
  | .obj _ => true
  | _ => false

/-- Tests whether a value is a string. -/
def isStr : JSVal → Bool
  | .str _ => true
  | _ => false

/-- Tests whether a value is a primitive (not an object or array).  Strict
equality of primitives is structural; for objects and arrays JS compares
references, which a structural model cannot represent, so the theorems about
`===` on ids restrict to primitive ids. -/
def isPrim : JSVal → Bool
  | .obj _ => false
  | .arr _ => false
  | _ => true

/-- JavaScript strict equality `===` on the values this subsystem compares:
structural on primitives; `false` on objects and arrays (two distinct
references).  `NaN` is not modelled. -/
def strictEq : JSVal → JSVal → Bool
  | .null, .null => true
  | .undefined, .undefined => true
  | .bool a, .bool b => a == b
  | .num a, .num b => a == b
  | .str a, .str b => a == b
  | _, _ => false

/-- Own enumerable properties produced by a spread `{...v}`: an object's fields,
a string's or array's indexed elements, nothing for other primitives,
and nothing for `null` and `undefined` (JS permits spreading those). -/
def spreadFields : JSVal → List (String × JSVal)
  | .obj fs => fs
  | .str s => (List.range s.data.length).map
      (fun i => (toString i, .str (String.mk [s.data.getD i ' '])))
  | .arr xs => (List.range xs.length).zip xs |>.map (fun p => (toString p.1, p.2))
  | _ => []

/-- Writing property `k` on an association list, with JS object-literal
semantics: an existing key keeps its position and gets the new value, a fresh
key is appended. -/
def objSet (fs : List (String × JSVal)) (k : String) (v : JSVal) : List (String × JSVal) :=
  if fs.any (fun p => p.1 == k) then
    fs.map (fun p => if p.1 == k then (k, v) else p)
  else
    fs ++ [(k, v)]

/-- Reading property `k` from an association list: the first binding's value, or
`undefined` when the key is absent. -/
def objLookup (fs : List (String × JSVal)) (k : String) : JSVal :=
  match fs.find? (fun p => p.1 == k) with
  | some p => p.2
  | none => .undefined

/-- JavaScript property read `v[k]`: throws a `TypeError` on `null` and
`undefined`, returns `undefined` for absent keys and for keys read off other
primitives and arrays (no numeric indexing is exercised by this subsystem). -/
def getProp : JSVal → String → Except String JSVal
  | .null, k => .error ("TypeError: Cannot read properties of null (reading " ++ k ++ ")")
  | .undefined, k => .error ("TypeError: Cannot read properties of undefined (reading " ++ k ++ ")")
  | .obj fs, k => .ok (objLookup fs k)
  | _, _ => .ok .undefined

/-- Total property read used only to state theorems: like `getProp` but `null`
and `undefined` receivers give `undefined` instead of an error. -/
def getD (v : JSVal) (k : String) : JSVal :=
  match getProp v k with
  | .ok x => x
  | .error _ => .undefined

/-- The fields of an object value (empty for non-objects); used when rebuilding
an object literal from an already-computed object. -/
def jsFields : JSVal → List (String × JSVal)
  | .obj fs => fs
  | _ => []

/-- Removes every binding of key `k` from an object, leaving other values
unchanged; used to state order/content preservation up to one patched field. -/
def stripKey (k : String) : JSVal → JSVal
  | .obj fs => .obj (fs.filter (fun p => !(p.1 == k)))
  | v => v

/-- `Object.keys`: an object's keys in insertion order, a string's or array's
indices, nothing for other values. -/
def jsKeys : JSVal → List String
  | .obj fs => fs.map (fun p => p.1)
  | .str s => (List.range s.length).map toString
  | .arr xs => (List.range xs.length).map toString
  | _ => []

/-- Substring search over character lists: the needle is a prefix of the
haystack or occurs in its tail.  (The Lean core string functions are not
kernel-reducible, so the string methods of JS are modelled charwise.) -/
def hasSub (needle : List Char) : List Char → Bool
  | [] => needle.isEmpty
  | c :: t => needle.isPrefixOf (c :: t) || hasSub needle t

/-- String containment, modelling `String.prototype.includes`: every string
contains the empty string. -/
def strContains (s needle : String) : Bool :=
  hasSub needle.data s.data

/-- ASCII lower-casing of one character, as `toLowerCase` acts on the ASCII
field values this repository stores. -/
def toLowerChar (c : Char) : Char :=
  if 'A' ≤ c ∧ c ≤ 'Z' then Char.ofNat (c.toNat + 32) else c

/-- Models `String.prototype.toLowerCase` for ASCII data, charwise. -/
def jsToLower (s : String) : String :=
  .mk (s.data.map toLowerChar)

/-- JS whitespace as found in comma-separated filter values. -/
def isWhitespaceChar (c : Char) : Bool :=
  c = ' ' || c = '\t' || c = '\n' || c = '\r'

/-- Models `String.prototype.trim`, charwise. -/
def jsTrim (s : String) : String :=
  .mk (((s.data.dropWhile isWhitespaceChar).reverse.dropWhile isWhitespaceChar).reverse)

/-- Splitting a character list on a separator character, keeping empty
pieces. -/
def splitCharList (sep : Char) : List Char → List (List Char)
  | [] => [[]]
  | c :: t =>
    let r := splitCharList sep t
    if c = sep then [] :: r
    else
      match r with
      | [] => [[c]]
      | h :: rest => (c :: h) :: rest

/-- Models `value.split(',')` (the only split the query code performs):
splitting on one separator character, keeping empty pieces. -/
def jsSplit (s : String) (sep : Char) : List String :=
  (splitCharList sep s.data).map (fun l => .mk l)

mutual

/-- The `ToString` coercion JS applies to non-receiver positions (for example
the argument of `String.prototype.includes`).  Arrays join their elements with
commas, `null` and `undefined` elements joining as empty strings. -/
def jsToStr : JSVal → String
  | .null => "null"
  | .undefined => "undefined"
  | .bool b => if b then "true" else "false"
  | .num n => toString n
  | .str s => s
  | .obj _ => "[object Object]"
  | .arr xs => String.intercalate "," (jsToStrList xs)

/-- Element strings of `Array.prototype.toString`: `null` and `undefined`
elements become empty strings, the rest are coerced with `jsToStr`. -/
def jsToStrList : List JSVal → List String
  | [] => []
  | .null :: rest => "" :: jsToStrList rest
  | .undefined :: rest => "" :: jsToStrList rest
  | v :: rest => jsToStr v :: jsToStrList rest

end

/-- Method call `v.toLowerCase()`: defined on strings, a `TypeError`
elsewhere. -/
def jsToLowerCase : JSVal → Except String String
  | .str s => .ok (jsToLower s)
  | .null => .error "TypeError: Cannot read properties of null (reading toLowerCase)"
  | .undefined => .error "TypeError: Cannot read properties of undefined (reading toLowerCase)"
  | _ => .error "TypeError: toLowerCase is not a function"

/-- Method call `v.includes(needle)` for a string needle: substring test on
strings, strict-equality membership on arrays, a `TypeError` on every other
receiver (`null`, `undefined`, numbers, booleans, plain objects). -/
def jsIncludes (v : JSVal) (needle : String) : Except String Bool :=
  match v with
  | .str s => .ok (strContains s needle)
  | .arr xs => .ok (xs.any (fun x => strictEq x (.str needle)))
  | .null => .error "TypeError: Cannot read properties of null (reading includes)"
  | .undefined => .error "TypeError: Cannot read properties of undefined (reading includes)"
  | _ => .error "TypeError: includes is not a function"

/-- Method call `receiver.includes(v)` where the receiver is a task's custom
field value (known truthy): substring test when the receiver is a string (the
argument is coerced with `ToString`), membership when it is an array, a
`TypeError` otherwise. -/
def jsIncludesVal (receiver v : JSVal) : Except String Bool :=
  match receiver with
  | .str s => .ok (strContains s (jsToStr v))
  | .arr xs => .ok (xs.any (fun x => strictEq x v))
  | .null => .error "TypeError: Cannot read properties of null (reading includes)"
  | .undefined => .error "TypeError: Cannot read properties of undefined (reading includes)"
  | _ => .error "TypeError: includes is not a function"

/-- `Array.prototype.filter` with an effectful callback: the callback runs left
to right on every element and the first thrown error aborts the pass, exactly
the observable behaviour of `results.filter(cb)` when `cb` can throw. -/
def filterE {α : Type} (f : α → Except String Bool) : List α → Except String (List α)
  | [] => .ok []
  | a :: as => do
    let b ← f a
    let rest ← filterE f as
    pure (if b then a :: rest else rest)

/-- `Array.prototype.map` with an effectful callback: elements are mapped left
to right and the first thrown error aborts the pass. -/
def mapE {α β : Type} (f : α → Except String β) : List α → Except String (List β)
  | [] => .ok []
  | a :: as => do
    let b ← f a
    let rest ← mapE f as
    pure (b :: rest)

/-- Number formatting `(num/den).toFixed(1)` for the non-negative ratios the
integrity report produces, in exact arithmetic: `toFixed(1)` picks the integer
`n` minimising the distance of `n/10` to the value, larger `n` on ties, which
is `n = floor(num/den * 10 + 1/2) = (num * 20 + den) / (2 * den)` for
non-negative inputs, then prints one digit after the point. -/
def jsToFixed1Ratio (num den : Nat) : String :=
  let n : Nat := (num * 20 + den) / (2 * den)
  toString (n / 10) ++ "." ++ toString (n % 10)

/-!
Embedding of `customFieldsValidator.js` (appended to
`src/scripts/modules/utils/fuzzyTaskSearch.js` in the snapshot) and of
`src/scripts/modules/utils/backwardCompatibility.js`.
-/

/-- Embeds `ensureCustomFields(item)` from customFieldsValidator.js:
`return { ...item, customFields: item.customFields || {} }`.  Reading
`item.customFields` throws on `null`/`undefined` items. -/
def ensureCustomFields (item : JSVal) : Except String JSVal := do
  let cf ← getProp item "customFields"
  pure (.obj (objSet (spreadFields item) "customFields" (if truthy cf then cf else .obj [])))

/-- The per-task body of `ensureCustomFieldsOnTasks` from
customFieldsValidator.js: `{ ...ensureCustomFields(task), subtasks:
task.subtasks ? task.subtasks.map(ensureCustomFields) : (task.subtasks || [])
}`.  Note that a falsy `subtasks` (absent, `null`, `undefined`) becomes `[]`,
and a truthy non-array `subtasks` makes `.map` throw. -/
def ensureTaskStep (task : JSVal) : Except String JSVal := do
  let base ← ensureCustomFields task
  let st ← getProp task "subtasks"
  let newSt ←
    if truthy st then
      match st with
      | .arr l => do
        let l' ← mapE ensureCustomFields l
        pure (JSVal.arr l')
      | _ => Except.error "TypeError: task.subtasks.map is not a function"
    else pure (JSVal.arr [])
  pure (JSVal.obj (objSet (jsFields base) "subtasks" newSt))

/-- Embeds `ensureCustomFieldsOnTasks(tasks)` from customFieldsValidator.js:
`tasks.map` of `ensureTaskStep` over the tasks array; `.map` throws on
non-array input. -/
def ensureCustomFieldsOnTasks (tasks : JSVal) : Except String JSVal :=
  match tasks with
  | .arr ts => do
    let ts' ← mapE ensureTaskStep ts
    pure (.arr ts')
  | _ => .error "TypeError: tasks.map is not a function"

/-- Embeds `ensureTasksBackwardCompatibility(tasks)` from
backwardCompatibility.js, which is exactly
`return ensureCustomFieldsOnTasks(tasks);`. -/
def ensureTasksBackwardCompatibility (tasks : JSVal) : Except String JSVal :=
  ensureCustomFieldsOnTasks tasks

/-!
Embedding of `subtaskValidator.js` (the first document of
`src/unnamed/part_003`).
-/

/-- The per-subtask body of `ensureSubtaskParentIds`: a subtask whose
`parentTaskId` is falsy or not strictly equal to the owning task's `id` is
rewritten as `{ ...subtask, parentTaskId: task.id }`, the rest are returned
as-is.  Reading `subtask.parentTaskId` throws when the entry is `null` or
`undefined`. -/
def fixSubtaskParentId (tid : JSVal) (subtask : JSVal) : Except String JSVal := do
  let pid ← getProp subtask "parentTaskId"
  if !truthy pid || !strictEq pid tid then
    pure (JSVal.obj (objSet (spreadFields subtask) "parentTaskId" tid))
  else pure subtask

/-- The per-task body of `ensureSubtaskParentIds`: tasks whose `subtasks` is
falsy, not an array, or empty are returned unchanged; otherwise the subtasks
are mapped through `fixSubtaskParentId` and written back. -/
def fixTaskParentIds (task : JSVal) : Except String JSVal := do
  let st ← getProp task "subtasks"
  match st with
  | .arr l =>
    if l.isEmpty then pure task
    else do
      let tid ← getProp task "id"
      let l' ← mapE (fixSubtaskParentId tid) l
      pure (JSVal.obj (objSet (spreadFields task) "subtasks" (.arr l')))
  | _ => pure task

/-- Embeds `ensureSubtaskParentIds(tasks)` from subtaskValidator.js.  The
`logMigrations` parameter only controls console output and is omitted.
Non-array input is returned unchanged. -/
def ensureSubtaskParentIds (tasks : JSVal) : Except String JSVal :=
  match tasks with
  | .arr ts => do
    let ts' ← mapE fixTaskParentIds ts
    pure (.arr ts')
  | v => .ok v

/-- The summary block of `createSubtaskIntegrityReport(tasks)`.  Fields mirror
the source's `summary` object. -/
structure IntegritySummary where
  totalTasks : Nat
  tasksWithSubtasks : Nat
  totalSubtasks : Nat
  subtasksWithIssues : Nat
  integrityScore : String
deriving Repr, DecidableEq

/-- The integrity score as computed in `createSubtaskIntegrityReport`:
`totalSubtasks > 0 ? ((totalSubtasks - subtasksWithIssues) / totalSubtasks *
100).toFixed(1) + '%' : '100%'` (the issue count never exceeds the subtask
count, so `(tot - iss) * 100 / tot` is the exact non-negative ratio). -/
def integrityScoreString (tot iss : Nat) : String :=
  if 0 < tot then jsToFixed1Ratio ((tot - iss) * 100) tot ++ "%" else "100%"

/-- The counting loop of `createSubtaskIntegrityReport(tasks)` from
subtaskValidator.js, accumulating `(tasksWithSubtasks, totalSubtasks,
subtasksWithIssues)`: tasks with a non-empty `subtasks` array contribute their
length to `totalSubtasks`, and a subtask counts as an issue when its
`parentTaskId` is falsy or differs from the task's `id`. -/
def integrityAccum (tasks : List JSVal) : Except String (Nat × Nat × Nat) :=
  tasks.foldlM (fun acc task => do
    let st ← getProp task "subtasks"
    match st with
    | .arr l =>
      if l.isEmpty then pure acc
      else do
        let tid ← getProp task "id"
        let issHere ← l.foldlM (fun n subtask => do
          let pid ← getProp subtask "parentTaskId"
          pure (if !truthy pid || !strictEq pid tid then n + 1 else n)) 0
        pure (acc.1 + 1, acc.2.1 + l.length, acc.2.2 + issHere)
    | _ => pure acc) ((0 : Nat), (0 : Nat), (0 : Nat))

/-- Embeds the `summary` block of `createSubtaskIntegrityReport(tasks)` from
subtaskValidator.js.  (The `issues`, `orphanedSubtasks` and `isHealthy` parts
of the report are not needed by the claims and are not modelled.) -/
def createSubtaskIntegrityReport (tasks : List JSVal) : Except String IntegritySummary := do
  let acc ← integrityAccum tasks
  pure { totalTasks := tasks.length
         tasksWithSubtasks := acc.1
         totalSubtasks := acc.2.1
         subtasksWithIssues := acc.2.2
         integrityScore := integrityScoreString acc.2.1 acc.2.2 }

/-!
Embedding of the queryTranslator module.  The repository snapshot carries two
copies: the current module (second document of `src/unnamed/part_003`, with
case-insensitive status filtering) and `src/scripts/modules/utils/
queryTranslator.js` (whose status filtering is case-sensitive).  The parameter
translation and custom-field filtering are identical in both; the core-field
matching differs and both variants are embedded.
-/

/-- The `CORE_FIELDS` array, identical in both queryTranslator copies. -/
def CORE_FIELDS : List String :=
  ["id", "title", "description", "details", "testStrategy",
   "status", "priority", "dependencies", "subtasks", "customFields",
   "file", "projectRoot", "tag", "withSubtasks", "complexityReport"]

/-- The result shape of `translateQueryParameters`. -/
structure TranslatedQuery where
  coreFields : List (String × JSVal)
  customFields : List (String × JSVal)
deriving Repr

/-- Embeds `translateQueryParameters(params)`: every parameter is routed to
`coreFields` when its key is in `CORE_FIELDS`, else to `customFields`, values
passed through unmodified and insertion order preserved. -/
def translateQueryParameters (params : List (String × JSVal)) : TranslatedQuery :=
  { coreFields := params.filter (fun p => CORE_FIELDS.contains p.1)
    customFields := params.filter (fun p => !CORE_FIELDS.contains p.1) }

/-- The core-field predicate of `filterTasks` in the current queryTranslator
module (part_003): comma-separated status values are split, trimmed and
lower-cased and matched against the lower-cased task status; a single status
value is compared case-insensitively; every other core field matches on strict
equality or on substring containment of the filter value in the field's string
form. -/
def coreFieldMatches (field : String) (value : JSVal) (task : JSVal) : Except String Bool := do
  if field == "status" then do
    let hasComma ← jsIncludes value ","
    if hasComma then
      match value with
      | .str s => do
        let statuses := (jsSplit s ',').map (fun p => jsToLower (jsTrim p))
        let tv ← getProp task field
        let tl ← jsToLowerCase tv
        pure (statuses.contains tl)
      | _ => Except.error "TypeError: value.split is not a function"
    else do
      let tv ← getProp task field
      let tl ← jsToLowerCase tv
      let vl ← jsToLowerCase value
      pure (tl == vl)
  else do
    let tv ← getProp task field
    if strictEq tv value then pure true
    else if truthy tv then pure (strContains (jsToStr tv) (jsToStr value))
    else pure false

/-- The core-field predicate of `filterTasks` in
`src/scripts/modules/utils/queryTranslator.js`: comma-separated status values
are split and trimmed but NOT lower-cased and matched by strict equality;
a single status value falls through to the generic strict-equality-or-substring
comparison, so status filtering is case-sensitive in this copy. -/
def coreFieldMatchesScripts (field : String) (value : JSVal) (task : JSVal) :
    Except String Bool := do
  let hasComma ← if field == "status" then jsIncludes value "," else pure false
  if field == "status" && hasComma then
    match value with
    | .str s => do
      let statuses := (jsSplit s ',').map (fun p => jsTrim p)
      let tv ← getProp task field
      pure (statuses.any (fun st => strictEq tv (.str st)))
    | _ => Except.error "TypeError: value.split is not a function"
  else do
    let tv ← getProp task field
    if strictEq tv value then pure true
    else if truthy tv then pure (strContains (jsToStr tv) (jsToStr value))
    else pure false

/-- The custom-field predicate of `filterTasks`, identical in both copies: a
task with falsy `customFields`, or a falsy value for the filtered key, never
matches; a comma in the filter value requests split/trim membership against
the exact custom-field value; otherwise strict equality or substring
containment. -/
def customFieldMatches (field : String) (value : JSVal) (task : JSVal) :
    Except String Bool := do
  let cf ← getProp task "customFields"
  if !truthy cf then pure false
  else do
    let v ← getProp cf field
    if !truthy v then pure false
    else do
      let hasComma ← jsIncludes value ","
      if hasComma then
        match value with
        | .str s => pure (((jsSplit s ',').map (fun p => jsTrim p)).any
            (fun p => strictEq v (.str p)))
        | _ => Except.error "TypeError: value.split is not a function"
      else
        if strictEq v value then pure true
        else jsIncludesVal v value

/-- Embeds `filterTasks(tasks, filters)` of the current queryTranslator module:
core filters applied in order, then custom filters, each with
`Array.prototype.filter`. -/
def filterTasks (tasks : List JSVal) (filters : TranslatedQuery) :
    Except String (List JSVal) := do
  let afterCore ← filters.coreFields.foldlM
    (fun acc fv => filterE (coreFieldMatches fv.1 fv.2) acc) tasks
  filters.customFields.foldlM
    (fun acc fv => filterE (customFieldMatches fv.1 fv.2) acc) afterCore

/-- Embeds `filterTasks(tasks, filters)` of
`src/scripts/modules/utils/queryTranslator.js` (case-sensitive status
handling); custom-field filtering is shared with the other copy. -/
def filterTasksScripts (tasks : List JSVal) (filters : TranslatedQuery) :
    Except String (List JSVal) := do
  let afterCore ← filters.coreFields.foldlM
    (fun acc fv => filterE (coreFieldMatchesScripts fv.1 fv.2) acc) tasks
  filters.customFields.foldlM
    (fun acc fv => filterE (customFieldMatches fv.1 fv.2) acc) afterCore

/-!
Embedding of the search-key generation of
`src/scripts/modules/utils/fuzzyTaskSearch.js`.  Weights are the exact decimal
literals of `FIELD_WEIGHTS`, as rationals.
-/

/-- The `FIELD_WEIGHTS` table of fuzzyTaskSearch.js (including the synthetic
`default` entry). -/
def FIELD_WEIGHTS : List (String × ℚ) :=
  [("title", 2), ("description", 3/2), ("details", 1), ("dependencyTitles", 1/2),
   ("epic", 9/5), ("component", 3/2), ("taskType", 8/5), ("assignee", 6/5),
   ("sprint", 7/5), ("default", 1)]

/-- Embeds `getWeightForField(fieldName)`:
`FIELD_WEIGHTS[fieldName] || FIELD_WEIGHTS.default` (every stored weight is
truthy, so a present key always wins). -/
def getWeightForField (fieldName : String) : ℚ :=
  match FIELD_WEIGHTS.find? (fun p => p.1 == fieldName) with
  | some p => p.2
  | none => 1

/-- Set insertion preserving first-seen order, modelling additions to the
`Set` in `getCustomFieldNames`. -/
def addName (acc : List String) (n : String) : List String :=
  if acc.contains n then acc else acc ++ [n]

/-- Embeds `getCustomFieldNames(tasks)` of fuzzyTaskSearch.js: collects custom
field keys of every task and of every subtask (when `task.subtasks` is truthy,
`forEach` throws on non-arrays), unique, in first-seen order. -/
def getCustomFieldNames (tasks : List JSVal) : Except String (List String) :=
  tasks.foldlM (fun acc task => do
    let cf ← getProp task "customFields"
    let acc := if truthy cf then (jsKeys cf).foldl addName acc else acc
    let st ← getProp task "subtasks"
    if truthy st then
      match st with
      | .arr l => l.foldlM (fun a subtask => do
          let scf ← getProp subtask "customFields"
          pure (if truthy scf then (jsKeys scf).foldl addName a else a)) acc
      | _ => Except.error "TypeError: task.subtasks.forEach is not a function"
    else pure acc) []

/-- Embeds `generateSearchKeys(tasks)` of fuzzyTaskSearch.js: the four core
fields `title`, `description`, `details`, `dependencyTitles` first, each with
its `getWeightForField` weight, then one `customFields.<name>` key per
discovered custom field name, weighted by the bare name. -/
def generateSearchKeys (tasks : List JSVal) : Except String (List (String × ℚ)) := do
  let customFields ← getCustomFieldNames tasks
  let coreFields := ["title", "description", "details", "dependencyTitles"]
  pure (coreFields.map (fun f => (f, getWeightForField f)) ++
        customFields.map (fun f => ("customFields." ++ f, getWeightForField f)))

/-!
Helper definitions used to state the claims, and the concrete inputs of the
scenario claims, counterexamples and witnesses.
-/

/-- The `i`-th element of an array value (`undefined` when out of range or not
an array); used to state the scenario claims. -/
def taskAt (v : JSVal) (i : Nat) : JSVal :=
  match v with
  | .arr l => l.getD i .undefined
  | _ => .undefined

/-- The `i`-th entry of a task's `subtasks` array (`undefined` when the array
or the entry is missing); used to state the scenario claims. -/
def subtaskAt (t : JSVal) (i : Nat) : JSVal :=
  match getD t "subtasks" with
  | .arr l => l.getD i .undefined
  | _ => .undefined

/-- The string carried by a task's `status` field (empty for non-strings);
used to state the status-filter claims, whose hypotheses force the field to be
a string. -/
def statusOf (t : JSVal) : String :=
  match getD t "status" with
  | .str s => s
  | _ => ""

/-- The string carried by a value known to be a string (empty otherwise). -/
def strOf : JSVal → String
  | .str s => s
  | _ => ""

/-- The pure matching predicate realised by the comma path of the custom-field
filter: the task's value for the field is truthy and strictly equal to one of
the listed strings. -/
def customExactIn (field : String) (vals : List String) (t : JSVal) : Bool :=
  let v := getD (getD t "customFields") field
  truthy v && vals.any (fun p => strictEq v (.str p))

/-- The pure matching predicate realised by the single-value path of the
custom-field filter on string-valued fields: the task's value is truthy and
equals the filter value or contains it as a substring. -/
def customSingleMatch (field : String) (val : String) (t : JSVal) : Bool :=
  let v := getD (getD t "customFields") field
  truthy v && (strictEq v (.str val) || strContains (strOf v) val)

/-- The pure matching predicate realised by the case-insensitive status filter
of the current queryTranslator module, for a string filter value. -/
def statusFilterMatch (value : String) (t : JSVal) : Bool :=
  if strContains value "," then
    ((jsSplit value ',').map (fun p => jsToLower (jsTrim p))).contains (jsToLower (statusOf t))
  else jsToLower (statusOf t) == jsToLower value

/-- A task is well formed when it is a plain object whose `subtasks`, when
truthy, is an array of plain objects.  This is the shape every persisted task
record has and the shape the idempotence claim quantifies over. -/
def WellFormedTask (t : JSVal) : Prop :=
  isObj t = true ∧
  (truthy (getD t "subtasks") = true →
    ∃ l, getD t "subtasks" = .arr l ∧ ∀ s ∈ l, isObj s = true)

/-- The legacy-migration scenario input of the specification:
`{tasks:[{id:1,title:"T1",subtasks:[{id:1,title:"S1"},{id:2,title:"S2",
parentTaskId:999}]}]}`, as the tasks array. -/
def legacyScenarioTasks : JSVal :=
  .arr [.obj [("id", .num 1), ("title", .str "T1"),
    ("subtasks", .arr [
      .obj [("id", .num 1), ("title", .str "S1")],
      .obj [("id", .num 2), ("title", .str "S2"), ("parentTaskId", .num 999)]])]]

/-- What `ensureTasksBackwardCompatibility` actually produces on the
legacy-migration scenario input: `customFields` are added everywhere but no
`parentTaskId` is assigned or corrected. -/
def legacyScenarioActualOutput : JSVal :=
  .arr [.obj [("id", .num 1), ("title", .str "T1"),
    ("subtasks", .arr [
      .obj [("id", .num 1), ("title", .str "S1"), ("customFields", .obj [])],
      .obj [("id", .num 2), ("title", .str "S2"), ("parentTaskId", .num 999),
            ("customFields", .obj [])]]),
    ("customFields", .obj [])]]

/-- A tasks array whose single task carries a `null` entry in its `subtasks`
array, the failing input of the malformed-subtask claim. -/
def nullSubtaskTasks : JSVal :=
  .arr [.obj [("id", .num 4), ("title", .str "Task with malformed subtasks"),
    ("subtasks", .arr [.null,
      .obj [("id", .num 2), ("title", .str "Valid subtask with wrong parent"),
            ("parentTaskId", .num 999)]])]]

/-- A task whose `epic` custom field is `"EPIC-12345"`: an exact mismatch but
a substring superset of `"EPIC-1234"`. -/
def epicSupersetTask : JSVal :=
  .obj [("id", .num 1), ("customFields", .obj [("epic", .str "EPIC-12345")])]

/-- A task with status `"pending"` and no other fields. -/
def pendingTask : JSVal := .obj [("status", .str "pending")]

/-- A task with status `"Pending"`, mixed case. -/
def mixedCaseTask : JSVal := .obj [("status", .str "Pending")]

/-- A task without any `subtasks` property. -/
def noSubtasksTask : JSVal := .obj [("id", .num 3), ("title", .str "T")]

/-- A task whose `subtasks` property is explicitly `null`. -/
def nullSubtasksTask : JSVal := .obj [("id", .num 5), ("title", .str "U"), ("subtasks", .null)]

/-- The four core search keys `generateSearchKeys` always emits, with the
weights of `FIELD_WEIGHTS`. -/
def fuzzyCoreKeys : List (String × ℚ) :=
  [("title", 2), ("description", 3/2), ("details", 1), ("dependencyTitles", 1/2)]

/-- A task set with three core text fields and no custom fields anywhere. -/
def noCustomFieldTasks : List JSVal :=
  [.obj [("id", .num 1), ("title", .str "A"), ("description", .str "B"),
         ("details", .str "C"), ("customFields", .obj [])]]

/-- Fifty distinct custom field names. -/
def fiftyNames : List String := (List.range 50).map (fun i => "cf" ++ toString i)

/-- The task set of the dynamic-search-keys scenario after adding fifty
distinct custom fields to one task. -/
def fiftyFieldTasks : List JSVal :=
  [.obj [("id", .num 1), ("title", .str "A"),
         ("customFields", .obj (fiftyNames.map (fun n => (n, .str "v"))))]]

/-- A small well-formed task collection: one task with a subtask, one without
`subtasks`. -/
def idemDemoTasks : List JSVal :=
  [.obj [("id", .num 1), ("title", .str "T1"),
         ("subtasks", .arr [.obj [("id", .num 1), ("title", .str "S1")]])],
   .obj [("id", .num 2), ("title", .str "T2")]]

/-- A task collection whose subtasks need parent-id fixes: one missing, one
wrong, one already correct. -/
def convergenceDemoTasks : List JSVal :=
  [.obj [("id", .num 7), ("title", .str "T"),
    ("subtasks", .arr [
      .obj [("id", .num 1), ("title", .str "a")],
      .obj [("id", .num 2), ("title", .str "b"), ("parentTaskId", .num 999)],
      .obj [("id", .num 3), ("title", .str "c"), ("parentTaskId", .num 7)]])]]

/-- A task collection with one task owning four subtasks of which exactly two
have a missing or wrong `parentTaskId`. -/
def fourSubtasksTwoIssues : List JSVal :=
  [.obj [("id", .num 1), ("title", .str "Task"),
    ("subtasks", .arr [
      .obj [("id", .num 1), ("title", .str "ok1"), ("parentTaskId", .num 1)],
      .obj [("id", .num 2), ("title", .str "ok2"), ("parentTaskId", .num 1)],
      .obj [("id", .num 3), ("title", .str "missing")],
      .obj [("id", .num 4), ("title", .str "wrong"), ("parentTaskId", .num 9)]])]]

/-- The summary `createSubtaskIntegrityReport` computes on
`fourSubtasksTwoIssues`. -/
def fourSubtasksTwoIssuesSummary : IntegritySummary :=
  { totalTasks := 1, tasksWithSubtasks := 1, totalSubtasks := 4,
    subtasksWithIssues := 2, integrityScore := "50.0%" }

/-!
General lemmas about the object model and the effectful array combinators.
-/

theorem map_eq_self_of {α : Type} {l : List α} {f : α → α}
    (h : ∀ a ∈ l, f a = a) : l.map f = l := by
  induction l with
  | nil => rfl
  | cons a as ih =>
    simp only [List.map_cons, h a (by simp)]
    rw [ih]
    intro x hx
    exact h x (by simp [hx])

theorem objSet_replace_eq (fs : List (String × JSVal)) (k : String) (v : JSVal)
    (h : fs.any (fun p => p.1 == k) = true) :
    objSet fs k v = fs.map (fun p => if p.1 == k then (k, v) else p) := by
  simp [objSet, h]

theorem objSet_extend_eq (fs : List (String × JSVal)) (k : String) (v : JSVal)
    (h : fs.any (fun p => p.1 == k) = false) :
    objSet fs k v = fs ++ [(k, v)] := by
  simp [objSet, h]

theorem objLookup_objSet_self (fs : List (String × JSVal)) (k : String) (v : JSVal) :
    objLookup (objSet fs k v) k = v := by
  cases hany : fs.any (fun p => p.1 == k) with
  | true =>
    rw [objSet_replace_eq fs k v hany]
    unfold objLookup
    rw [List.find?_map]
    have hpred : ((fun p => p.1 == k) ∘ fun p : String × JSVal =>
        if p.1 == k then (k, v) else p) = fun p : String × JSVal => p.1 == k := by
      funext p
      by_cases hk : p.1 == k <;> simp [Function.comp, hk]
    rw [hpred]
    rw [List.any_eq_true] at hany
    obtain ⟨p0, hp0, hk0⟩ := hany
    have hsome : (fs.find? (fun p => p.1 == k)).isSome := by
      rw [List.find?_isSome]
      exact ⟨p0, hp0, hk0⟩
    cases hfind : fs.find? (fun p => p.1 == k) with
    | none => rw [hfind] at hsome; simp at hsome
    | some q =>
      have hq : (q.1 == k) = true := by
        have := List.find?_some hfind
        simpa using this
      have hq2 : q.1 = k := by simpa using hq
      simp [Option.map_some, hq2]
  | false =>
    rw [objSet_extend_eq fs k v hany]
    unfold objLookup
    rw [List.find?_append]
    have hnone : fs.find? (fun p => p.1 == k) = none := by
      rw [List.find?_eq_none]
      intro p hp
      rw [List.any_eq_false] at hany
      simpa using hany p hp
    simp [hnone, List.find?]

theorem objLookup_objSet_ne (fs : List (String × JSVal)) (k k' : String) (v : JSVal)
    (h : (k' == k) = false) : objLookup (objSet fs k v) k' = objLookup fs k' := by
  have hke : k ≠ k' := by
    intro he
    subst he
    simp at h
  cases hany : fs.any (fun p => p.1 == k) with
  | true =>
    rw [objSet_replace_eq fs k v hany]
    unfold objLookup
    rw [List.find?_map]
    have hpred : ((fun p => p.1 == k') ∘ fun p : String × JSVal =>
        if p.1 == k then (k, v) else p) = fun p : String × JSVal => p.1 == k' := by
      funext p
      by_cases hk : p.1 == k
      · have : p.1 = k := by simpa using hk
        simp [Function.comp, hk, this, hke, beq_iff_eq]
      · simp [Function.comp, hk]
    rw [hpred]
    cases hfind : fs.find? (fun p => p.1 == k') with
    | none => simp
    | some q =>
      have hq : (q.1 == k') = true := by
        have := List.find?_some hfind
        simpa using this
      have hq' : q.1 = k' := by simpa using hq
      have hqk : ¬(q.1 = k) := by
        rw [hq']
        exact fun he => hke he.symm
      simp [Option.map_some, hqk]
  | false =>
    rw [objSet_extend_eq fs k v hany]
    unfold objLookup
    rw [List.find?_append]
    have hk' : (k == k') = false := by
      simpa [beq_iff_eq] using hke
    cases hfind : fs.find? (fun p => p.1 == k') with
    | none => simp [List.find?, hk']
    | some q => simp

theorem objSet_any_self (fs : List (String × JSVal)) (k : String) (v : JSVal) :
    (objSet fs k v).any (fun p => p.1 == k) = true := by
  cases hany : fs.any (fun p => p.1 == k) with
  | true =>
    rw [objSet_replace_eq fs k v hany]
    rw [List.any_map]
    rw [List.any_eq_true] at hany ⊢
    obtain ⟨p0, hp0, hk0⟩ := hany
    refine ⟨p0, hp0, ?_⟩
    simp [Function.comp, hk0]
  | false =>
    rw [objSet_extend_eq fs k v hany]
    simp [List.any_append]

theorem objSet_objSet_self (fs : List (String × JSVal)) (k : String) (v : JSVal) :
    objSet (objSet fs k v) k v = objSet fs k v := by
  rw [objSet_replace_eq (objSet fs k v) k v (objSet_any_self fs k v)]
  apply map_eq_self_of
  intro p hp
  cases hany : fs.any (fun q => q.1 == k) with
  | true =>
    rw [objSet_replace_eq fs k v hany] at hp
    rw [List.mem_map] at hp
    obtain ⟨q, hq, hrep⟩ := hp
    by_cases hk : q.1 == k
    · rw [if_pos hk] at hrep
      subst hrep
      simp
    · rw [if_neg (by simpa using hk)] at hrep
      subst hrep
      simp [hk]
  | false =>
    rw [objSet_extend_eq fs k v hany] at hp
    rw [List.mem_append] at hp
    cases hp with
    | inl hin =>
      have : (p.1 == k) = false := by
        rw [List.any_eq_false] at hany
        simpa using hany p hin
      simp [this]
    | inr hone =>
      simp at hone
      subst hone
      simp

theorem objSet_all_key (fs : List (String × JSVal)) (k : String) (v : JSVal) :
    ∀ p ∈ objSet fs k v, p.1 = k → p.2 = v := by
  intro p hp hk
  cases hany : fs.any (fun q => q.1 == k) with
  | true =>
    rw [objSet_replace_eq fs k v hany] at hp
    rw [List.mem_map] at hp
    obtain ⟨q, _, hrep⟩ := hp
    by_cases hqk : q.1 == k
    · rw [if_pos hqk] at hrep
      subst hrep
      rfl
    · rw [if_neg (by simpa using hqk)] at hrep
      subst hrep
      exact absurd hk (by simpa using hqk)
  | false =>
    rw [objSet_extend_eq fs k v hany] at hp
    rw [List.mem_append] at hp
    cases hp with
    | inl hin =>
      rw [List.any_eq_false] at hany
      exact absurd hk (by simpa using hany p hin)
    | inr hone =>
      simp at hone
      subst hone
      rfl

theorem objSet_all_key_preserved (fs : List (String × JSVal)) (k k2 : String)
    (v v2 : JSVal) (hall : ∀ p ∈ fs, p.1 = k → p.2 = v) (hne : (k2 == k) = false) :
    ∀ p ∈ objSet fs k2 v2, p.1 = k → p.2 = v := by
  intro p hp hk
  have hk2k : k2 ≠ k := by simpa [beq_iff_eq] using hne
  cases hany : fs.any (fun q => q.1 == k2) with
  | true =>
    rw [objSet_replace_eq fs k2 v2 hany] at hp
    rw [List.mem_map] at hp
    obtain ⟨q, hq, hrep⟩ := hp
    by_cases hqk : q.1 == k2
    · rw [if_pos hqk] at hrep
      subst hrep
      exact absurd hk hk2k
    · rw [if_neg (by simpa using hqk)] at hrep
      subst hrep
      exact hall _ hq hk
  | false =>
    rw [objSet_extend_eq fs k2 v2 hany] at hp
    rw [List.mem_append] at hp
    cases hp with
    | inl hin => exact hall p hin hk
    | inr hone =>
      simp at hone
      subst hone
      exact absurd hk hk2k

theorem objSet_any_preserved (fs : List (String × JSVal)) (k k2 : String) (v2 : JSVal)
    (hany : fs.any (fun p => p.1 == k) = true) (hne : (k2 == k) = false) :
    (objSet fs k2 v2).any (fun p => p.1 == k) = true := by
  cases hany2 : fs.any (fun q => q.1 == k2) with
  | true =>
    rw [objSet_replace_eq fs k2 v2 hany2]
    rw [List.any_map]
    rw [List.any_eq_true] at hany ⊢
    obtain ⟨p0, hp0, hk0⟩ := hany
    refine ⟨p0, hp0, ?_⟩
    have hp0k : p0.1 = k := by simpa using hk0
    have : (p0.1 == k2) = false := by
      rw [hp0k]
      cases hkk : k == k2
      · rfl
      · exfalso
        have : k = k2 := by simpa using hkk
        subst this
        simp at hne
    simp [Function.comp, this, hk0]
  | false =>
    rw [objSet_extend_eq fs k2 v2 hany2]
    simp [List.any_append, hany]

theorem objSet_keep (fs : List (String × JSVal)) (k : String) (v : JSVal)
    (hany : fs.any (fun p => p.1 == k) = true)
    (hall : ∀ p ∈ fs, p.1 = k → p.2 = v) :
    objSet fs k v = fs := by
  rw [objSet_replace_eq fs k v hany]
  apply map_eq_self_of
  intro p hp
  by_cases hk : p.1 == k
  · have h1 : p.1 = k := by simpa using hk
    have h2 : p.2 = v := hall p hp h1
    rw [if_pos hk]
    cases p
    simp_all
  · rw [if_neg (by simpa using hk)]

theorem stripKey_objSet (fs : List (String × JSVal)) (k : String) (v : JSVal) :
    stripKey k (.obj (objSet fs k v)) = stripKey k (.obj fs) := by
  simp only [stripKey]
  cases hany : fs.any (fun p => p.1 == k) with
  | true =>
    rw [objSet_replace_eq fs k v hany]
    rw [List.filter_map]
    have hpred : ((fun p => !(p.1 == k)) ∘ fun p : String × JSVal =>
        if p.1 == k then (k, v) else p) = fun p : String × JSVal => !(p.1 == k) := by
      funext p
      by_cases hk : p.1 == k <;> simp [Function.comp, hk]
    rw [hpred]
    congr 1
    apply map_eq_self_of
    intro p hp
    have := List.of_mem_filter hp
    rw [if_neg (by simpa using this)]
  | false =>
    rw [objSet_extend_eq fs k v hany]
    rw [List.filter_append]
    simp

theorem strictEq_self_of_isPrim (v : JSVal) (h : isPrim v = true) :
    strictEq v v = true := by
  cases v <;> simp_all [isPrim, strictEq]

theorem okBind {α β : Type} (a : α) (f : α → Except String β) :
    (Except.ok a : Except String α) >>= f = f a := rfl

theorem errBind {α β : Type} (e : String) (f : α → Except String β) :
    (Except.error e : Except String α) >>= f = Except.error e := rfl

theorem pureE {α : Type} (a : α) : (pure a : Except String α) = .ok a := rfl

theorem mapE_nil {α β : Type} (f : α → Except String β) : mapE f [] = .ok [] := rfl

theorem mapE_cons {α β : Type} (f : α → Except String β) (a : α) (as : List α) :
    mapE f (a :: as) = (do
      let b ← f a
      let rest ← mapE f as
      pure (b :: rest)) := rfl

theorem filterE_nil {α : Type} (f : α → Except String Bool) : filterE f [] = .ok [] := rfl

theorem filterE_cons {α : Type} (f : α → Except String Bool) (a : α) (as : List α) :
    filterE f (a :: as) = (do
      let b ← f a
      let rest ← filterE f as
      pure (if b then a :: rest else rest)) := rfl

theorem mapE_ok_pointwise {α β : Type} {f : α → Except String β} {P : α → β → Prop} :
    ∀ {l : List α}, (∀ a ∈ l, ∃ b, f a = .ok b ∧ P a b) →
    ∃ bs, mapE f l = .ok bs ∧ bs.length = l.length ∧
      (∀ i (h1 : i < l.length) (h2 : i < bs.length),
        P (l.get ⟨i, h1⟩) (bs.get ⟨i, h2⟩)) ∧
      (∀ b ∈ bs, ∃ a ∈ l, P a b) := by
  intro l
  induction l with
  | nil =>
    intro _
    exact ⟨[], rfl, rfl, fun i h1 h2 => absurd h1 (by simp), by simp⟩
  | cons a as ih =>
    intro h
    obtain ⟨b, hfa, hP⟩ := h a (by simp)
    obtain ⟨bs, hmap, hlen, hpt, hmem⟩ := ih (fun x hx => h x (by simp [hx]))
    refine ⟨b :: bs, ?_, by simp [hlen], ?_, ?_⟩
    · rw [mapE_cons, hfa, okBind, hmap, okBind, pureE]
    · intro i h1 h2
      cases i with
      | zero => exact hP
      | succ j => exact hpt j (by simpa using h1) (by simpa using h2)
    · intro x hx
      rcases List.mem_cons.mp hx with hx0 | hxs
      · exact ⟨a, by simp, hx0 ▸ hP⟩
      · obtain ⟨a0, ha0, hPa0⟩ := hmem x hxs
        exact ⟨a0, by simp [ha0], hPa0⟩

theorem mapE_ok_of_fix {α : Type} {f : α → Except String α} {l : List α}
    (h : ∀ a ∈ l, f a = .ok a) : mapE f l = .ok l := by
  induction l with
  | nil => rfl
  | cons a as ih =>
    rw [mapE_cons, h a (by simp), okBind, ih (fun x hx => h x (by simp [hx])), okBind, pureE]

theorem filterE_eq_filter {α : Type} {f : α → Except String Bool} {p : α → Bool} :
    ∀ {l : List α}, (∀ a ∈ l, f a = .ok (p a)) → filterE f l = .ok (l.filter p) := by
  intro l
  induction l with
  | nil =>
    intro _
    rfl
  | cons a as ih =>
    intro h
    rw [filterE_cons, h a (by simp), okBind,
      ih (fun x hx => h x (by simp [hx])), okBind, pureE, List.filter_cons]

theorem truthy_or_default (cf : JSVal) :
    truthy (if truthy cf then cf else .obj []) = true := by
  by_cases h : truthy cf
  · rw [if_pos h]
    exact h
  · rw [if_neg h]
    rfl

theorem ensureCustomFields_obj (fs : List (String × JSVal)) :
    ensureCustomFields (.obj fs) = .ok (.obj (objSet fs "customFields"
      (if truthy (objLookup fs "customFields") then objLookup fs "customFields"
       else .obj []))) := rfl

theorem ensureCustomFields_processed (gs : List (String × JSVal)) (w : JSVal)
    (hw : truthy w = true) :
    ensureCustomFields (.obj (objSet gs "customFields" w)) =
      .ok (.obj (objSet gs "customFields" w)) := by
  rw [ensureCustomFields_obj, objLookup_objSet_self, if_pos hw, objSet_objSet_self]

/-!
The claims.
-/

/-- Claim C1 — the backward-compatibility pass is specified (and tested, in
`backwardCompatibility.test.js` and
`subtask-parentid-readjson-integration.test.js`) to compose `customFields`
normalization with `parentTaskId` correction, but the code of
`ensureTasksBackwardCompatibility` only calls `ensureCustomFieldsOnTasks`,
which never touches `parentTaskId`.  On the specification's legacy-migration
scenario input the first subtask ends without any `parentTaskId` and the second
keeps the wrong value `999`, while `customFields` is added everywhere — the
code contradicts both the claim and the repository's own tests. -/
theorem ensureTasksBackwardCompatibility_scenario_keeps_bad_parentTaskId :
    ensureTasksBackwardCompatibility legacyScenarioTasks = .ok legacyScenarioActualOutput ∧
    getD (subtaskAt (taskAt legacyScenarioActualOutput 0) 0) "parentTaskId" = .undefined ∧
    getD (subtaskAt (taskAt legacyScenarioActualOutput 0) 1) "parentTaskId" = .num 999 ∧
    getD (taskAt legacyScenarioActualOutput 0) "customFields" = .obj [] ∧
    getD (subtaskAt (taskAt legacyScenarioActualOutput 0) 0) "customFields" = .obj [] ∧
    getD (subtaskAt (taskAt legacyScenarioActualOutput 0) 1) "customFields" = .obj [] :=
  ⟨rfl, rfl, rfl, rfl, rfl, rfl⟩

/-- Claim C3 — `ensureSubtaskParentIds` is specified never to crash on
malformed subtask entries, but the code reads `subtask.parentTaskId` off every
entry, so a `null` entry in a `subtasks` array makes the pass throw a
`TypeError` instead of completing normally. -/
theorem ensureSubtaskParentIds_throws_on_null_subtask :
    ensureSubtaskParentIds nullSubtaskTasks =
      .error "TypeError: Cannot read properties of null (reading parentTaskId)" := rfl

/-- Claim C10 — `filterTasks` is only total on string-valued filter values:
`translateQueryParameters` passes non-string values through unmodified, and the
comma check `value.includes(',')` then throws a `TypeError` on a `null` or
boolean core `status` filter against a non-empty task list, and on a non-string
custom-field filter evaluated against a task carrying a truthy value for that
field. -/
theorem filterTasksScripts_nonstring_filter_throws :
    translateQueryParameters [("status", JSVal.null)] =
      ⟨[("status", JSVal.null)], []⟩ ∧
    translateQueryParameters [("epic", JSVal.bool true)] =
      ⟨[], [("epic", JSVal.bool true)]⟩ ∧
    filterTasksScripts [pendingTask] (translateQueryParameters [("status", JSVal.null)]) =
      .error "TypeError: Cannot read properties of null (reading includes)" ∧
    filterTasksScripts [pendingTask] (translateQueryParameters [("status", JSVal.bool true)]) =
      .error "TypeError: includes is not a function" ∧
    filterTasksScripts [epicSupersetTask] (translateQueryParameters [("epic", JSVal.bool true)]) =
      .error "TypeError: includes is not a function" :=
  ⟨rfl, rfl, rfl, rfl, rfl⟩

/-- Claim C2, counterexample — in the `filterTasks` copy at
`src/scripts/modules/utils/queryTranslator.js` the status filter is
case-sensitive: the task status `"pending"` equals the filter value
`"PENDING"` under case-insensitive comparison, yet neither the single-value
filter nor the comma path matches it. -/
theorem filterTasksScripts_status_case_sensitive_cex :
    filterTasksScripts [pendingTask]
      (translateQueryParameters [("status", .str "PENDING")]) = .ok [] ∧
    jsToLower (statusOf pendingTask) = jsToLower "PENDING" ∧
    filterTasksScripts [pendingTask]
      (translateQueryParameters [("status", .str "PENDING,done")]) = .ok [] ∧
    ([] : List JSVal) ≠ [pendingTask] :=
  ⟨rfl, rfl, rfl, by simp⟩

/-- Claim C4, counterexample — the comma filter is not the union of the
single-value filters: the task whose `epic` is `"EPIC-12345"` matches the
single-value filter `"EPIC-1234"` by substring containment, so the union of
the two single-value results is that one task, but the multi-value filter
`"EPIC-1234,EPIC-5678"` uses exact membership and returns nothing. -/
theorem filterTasksScripts_comma_or_union_cex :
    filterTasksScripts [epicSupersetTask]
      (translateQueryParameters [("epic", .str "EPIC-1234,EPIC-5678")]) = .ok [] ∧
    filterTasksScripts [epicSupersetTask]
      (translateQueryParameters [("epic", .str "EPIC-1234")]) = .ok [epicSupersetTask] ∧
    filterTasksScripts [epicSupersetTask]
      (translateQueryParameters [("epic", .str "EPIC-5678")]) = .ok [] ∧
    ([] : List JSVal) ≠ [epicSupersetTask] :=
  ⟨rfl, rfl, rfl, by simp⟩

/-- Claim C7, counterexample — a task whose `subtasks` property is wholly
absent is not passed through with `subtasks` absent: `ensureCustomFieldsOnTasks`
evaluates `task.subtasks || []` and writes `[]`, exactly as it does for `null`
(the repository's own integration test expects both coercions). -/
theorem ensureCustomFieldsOnTasks_absent_subtasks_cex :
    ensureCustomFieldsOnTasks (.arr [noSubtasksTask]) =
      .ok (.arr [.obj [("id", .num 3), ("title", .str "T"),
        ("customFields", .obj []), ("subtasks", .arr [])]]) ∧
    ensureCustomFieldsOnTasks (.arr [nullSubtasksTask]) =
      .ok (.arr [.obj [("id", .num 5), ("title", .str "U"),
        ("subtasks", .arr []), ("customFields", .obj [])]]) ∧
    JSVal.arr [] ≠ JSVal.undefined :=
  ⟨rfl, rfl, fun h => JSVal.noConfusion h⟩

/-- Claim C9, counterexample — a task set with no custom fields yields four
generated keys, not three: the fixed core keys include `dependencyTitles` with
weight `0.5` in addition to `title`, `description` and `details`. -/
theorem generateSearchKeys_core_count_cex :
    generateSearchKeys noCustomFieldTasks = .ok fuzzyCoreKeys ∧
    fuzzyCoreKeys.length = 4 ∧ fuzzyCoreKeys.length ≠ 3 :=
  ⟨rfl, rfl, by decide⟩

set_option maxRecDepth 8000 in
/-- Claim C9 (amended) — `generateSearchKeys` emits the four core keys
`title` (2.0), `description` (1.5), `details` (1.0) and `dependencyTitles`
(0.5) first, then one `customFields.<name>` key per discovered custom field
name with its weight; adding fifty distinct custom fields to one task
therefore yields 54 keys in total, not 53. -/
theorem generateSearchKeys_counts :
    generateSearchKeys noCustomFieldTasks = .ok fuzzyCoreKeys ∧
    getCustomFieldNames fiftyFieldTasks = .ok fiftyNames ∧
    generateSearchKeys fiftyFieldTasks = .ok (fuzzyCoreKeys ++
      fiftyNames.map (fun f => ("customFields." ++ f, getWeightForField f))) ∧
    (fuzzyCoreKeys ++
      fiftyNames.map (fun f => ("customFields." ++ f, getWeightForField f))).length = 54 := by
  have hnames : getCustomFieldNames fiftyFieldTasks = .ok fiftyNames := rfl
  refine ⟨rfl, hnames, ?_, ?_⟩
  · unfold generateSearchKeys
    rw [hnames, okBind, pureE]
    rfl
  · simp [fuzzyCoreKeys, fiftyNames]

theorem getProp_obj (fs : List (String × JSVal)) (k : String) :
    getProp (.obj fs) k = .ok (objLookup fs k) := rfl

theorem getD_obj (fs : List (String × JSVal)) (k : String) :
    getD (.obj fs) k = objLookup fs k := rfl

theorem truthy_arr (l : List JSVal) : truthy (.arr l) = true := rfl

theorem getD_of_falsy (v : JSVal) (k : String) (h : truthy v = false) :
    getD v k = .undefined := by
  cases v <;> first | rfl | simp [truthy] at h

theorem getProp_of_truthy (v : JSVal) (k : String) (h : truthy v = true) :
    getProp v k = .ok (getD v k) := by
  cases v <;> first | rfl | simp [truthy] at h

theorem isObj_exists (t : JSVal) (h : isObj t = true) : ∃ fs, t = .obj fs := by
  cases t <;> simp [isObj] at h ⊢

theorem getD_str_isObj (t : JSVal) (k : String) (s : String)
    (h : getD t k = .str s) : ∃ fs, t = .obj fs := by
  cases t <;> simp [getD, getProp] at h ⊢

theorem statusOf_eq (t : JSVal) (s : String) (h : getD t "status" = .str s) :
    statusOf t = s := by
  unfold statusOf
  rw [h]

theorem strOf_str (s : String) : strOf (.str s) = s := rfl

theorem ensureTaskStep_detail (t : JSVal) (h : WellFormedTask t) :
    ∃ fs cfv l2, t = .obj fs ∧ truthy cfv = true ∧
      ensureTaskStep t = .ok (.obj (objSet (objSet fs "customFields" cfv)
        "subtasks" (.arr l2))) ∧
      (truthy (objLookup fs "subtasks") = false → l2 = []) ∧
      (∀ s ∈ l2, ∃ gs w, truthy w = true ∧ s = .obj (objSet gs "customFields" w)) := by
  obtain ⟨hobj, hsub⟩ := h
  obtain ⟨fs, rfl⟩ := isObj_exists t hobj
  refine ⟨fs, if truthy (objLookup fs "customFields") then objLookup fs "customFields"
    else .obj [], ?_⟩
  have hbase := ensureCustomFields_obj fs
  by_cases hst : truthy (objLookup fs "subtasks") = true
  · obtain ⟨l, hleq, hlobjs⟩ := hsub (by rw [getD_obj]; exact hst)
    rw [getD_obj] at hleq
    have hmap : ∀ s ∈ l, ∃ r, ensureCustomFields s = .ok r ∧
        ∃ gs w, truthy w = true ∧ r = .obj (objSet gs "customFields" w) := by
      intro s hs
      obtain ⟨gs, rfl⟩ := isObj_exists s (hlobjs s hs)
      exact ⟨_, ensureCustomFields_obj gs, gs, _, truthy_or_default _, rfl⟩
    obtain ⟨l2, hl2, _, _, hl2mem⟩ := mapE_ok_pointwise hmap
    refine ⟨l2, rfl, truthy_or_default _, ?_, ?_, ?_⟩
    · unfold ensureTaskStep
      rw [hbase, okBind, getProp_obj, okBind, hleq, if_pos (truthy_arr l)]
      simp only [hl2, okBind, pureE]
      rfl
    · intro hcontra
      rw [hleq] at hst
      exact absurd hst (by rw [hleq] at hcontra; simp [truthy] at hcontra)
    · intro s hs
      obtain ⟨a, _, ha⟩ := hl2mem s hs
      exact ha
  · refine ⟨[], rfl, truthy_or_default _, ?_, fun _ => rfl, by simp⟩
    unfold ensureTaskStep
    rw [hbase, okBind, getProp_obj, okBind, if_neg hst]
    simp only [pureE, okBind]
    rfl

theorem bool_eq_false (b : Bool) (h : ¬ b = true) : b = false := by
  cases b
  · rfl
  · exact absurd rfl h

theorem fixSubtaskParentId_spec (tid s : JSVal) (hprim : isPrim tid = true)
    (hobj : isObj s = true) :
    ∃ r, fixSubtaskParentId tid s = .ok r ∧
      strictEq (getD r "parentTaskId") tid = true ∧
      stripKey "parentTaskId" r = stripKey "parentTaskId" s := by
  obtain ⟨gs, rfl⟩ := isObj_exists s hobj
  by_cases htr : truthy (objLookup gs "parentTaskId") = true
  · by_cases hstq : strictEq (objLookup gs "parentTaskId") tid = true
    · refine ⟨.obj gs, ?_, ?_, rfl⟩
      · unfold fixSubtaskParentId
        simp only [getProp_obj, okBind, htr, hstq]
        rfl
      · rw [getD_obj]
        exact hstq
    · have hstqf := bool_eq_false _ hstq
      refine ⟨.obj (objSet gs "parentTaskId" tid), ?_, ?_, ?_⟩
      · unfold fixSubtaskParentId
        simp only [getProp_obj, okBind, htr, hstqf]
        rfl
      · rw [getD_obj, objLookup_objSet_self]
        exact strictEq_self_of_isPrim tid hprim
      · exact stripKey_objSet gs "parentTaskId" tid
  · have htrf := bool_eq_false _ htr
    refine ⟨.obj (objSet gs "parentTaskId" tid), ?_, ?_, ?_⟩
    · unfold fixSubtaskParentId
      simp only [getProp_obj, okBind, htrf]
      rfl
    · rw [getD_obj, objLookup_objSet_self]
      exact strictEq_self_of_isPrim tid hprim
    · exact stripKey_objSet gs "parentTaskId" tid

theorem fixTaskParentIds_detail (t : JSVal) (hobj : isObj t = true)
    (hid : isPrim (getD t "id") = true)
    (hsub : ∀ l, getD t "subtasks" = .arr l → ∀ s ∈ l, isObj s = true) :
    ∃ r, fixTaskParentIds t = .ok r ∧
      stripKey "subtasks" r = stripKey "subtasks" t ∧
      getD r "id" = getD t "id" ∧
      ∀ l', getD r "subtasks" = .arr l' →
        ∃ l, getD t "subtasks" = .arr l ∧ l'.length = l.length ∧
          ∀ j (hj : j < l'.length) (hj2 : j < l.length),
            strictEq (getD (l'.get ⟨j, hj⟩) "parentTaskId") (getD t "id") = true ∧
            stripKey "parentTaskId" (l'.get ⟨j, hj⟩) =
              stripKey "parentTaskId" (l.get ⟨j, hj2⟩) := by
  obtain ⟨fs, rfl⟩ := isObj_exists t hobj
  cases hst : objLookup fs "subtasks" with
  | arr l =>
    by_cases hemp : l.isEmpty = true
    · refine ⟨.obj fs, ?_, rfl, rfl, ?_⟩
      · unfold fixTaskParentIds
        simp only [getProp_obj, okBind, hst, hemp]
        rfl
      · intro l' hl'
        rw [getD_obj, hst] at hl'
        injection hl' with h1
        subst h1
        refine ⟨l, by rw [getD_obj, hst], rfl, ?_⟩
        intro j hj hj2
        rw [List.isEmpty_iff] at hemp
        subst hemp
        exact absurd hj (by simp)
    · have hempf := bool_eq_false _ hemp
      have hobjs : ∀ s ∈ l, isObj s = true := hsub l (by rw [getD_obj, hst])
      have hidfs : isPrim (objLookup fs "id") = true := by
        rw [getD_obj] at hid
        exact hid
      have hpt : ∀ s ∈ l, ∃ r, fixSubtaskParentId (objLookup fs "id") s = .ok r ∧
          (strictEq (getD r "parentTaskId") (objLookup fs "id") = true ∧
           stripKey "parentTaskId" r = stripKey "parentTaskId" s) := by
        intro s hs
        obtain ⟨r, h1, h2, h3⟩ :=
          fixSubtaskParentId_spec (objLookup fs "id") s hidfs (hobjs s hs)
        exact ⟨r, h1, h2, h3⟩
      obtain ⟨l2, hmap, hlen, hidx, _⟩ := mapE_ok_pointwise hpt
      refine ⟨.obj (objSet fs "subtasks" (.arr l2)), ?_, ?_, ?_, ?_⟩
      · unfold fixTaskParentIds
        simp only [getProp_obj, okBind, hst, hempf, hmap, pureE]
        rfl
      · exact stripKey_objSet fs "subtasks" (.arr l2)
      · rw [getD_obj, getD_obj, objLookup_objSet_ne _ _ _ _ (by decide)]
      · intro l' hl'
        rw [getD_obj, objLookup_objSet_self] at hl'
        injection hl' with h1
        subst h1
        refine ⟨l, by rw [getD_obj, hst], hlen, ?_⟩
        intro j hj hj2
        obtain ⟨hs1, hs2⟩ := hidx j hj2 hj
        refine ⟨?_, hs2⟩
        rw [getD_obj]
        exact hs1
  | null =>
    refine ⟨.obj fs, ?_, rfl, rfl, fun l' hl' => ?_⟩
    · unfold fixTaskParentIds
      simp only [getProp_obj, okBind, hst]
      rfl
    · rw [getD_obj, hst] at hl'
      exact JSVal.noConfusion hl'
  | undefined =>
    refine ⟨.obj fs, ?_, rfl, rfl, fun l' hl' => ?_⟩
    · unfold fixTaskParentIds
      simp only [getProp_obj, okBind, hst]
      rfl
    · rw [getD_obj, hst] at hl'
      exact JSVal.noConfusion hl'
  | bool b =>
    refine ⟨.obj fs, ?_, rfl, rfl, fun l' hl' => ?_⟩
    · unfold fixTaskParentIds
      simp only [getProp_obj, okBind, hst]
      rfl
    · rw [getD_obj, hst] at hl'
      exact JSVal.noConfusion hl'
  | num n =>
    refine ⟨.obj fs, ?_, rfl, rfl, fun l' hl' => ?_⟩
    · unfold fixTaskParentIds
      simp only [getProp_obj, okBind, hst]
      rfl
    · rw [getD_obj, hst] at hl'
      exact JSVal.noConfusion hl'
  | str s0 =>
    refine ⟨.obj fs, ?_, rfl, rfl, fun l' hl' => ?_⟩
    · unfold fixTaskParentIds
      simp only [getProp_obj, okBind, hst]
      rfl
    · rw [getD_obj, hst] at hl'
      exact JSVal.noConfusion hl'
  | obj o =>
    refine ⟨.obj fs, ?_, rfl, rfl, fun l' hl' => ?_⟩
    · unfold fixTaskParentIds
      simp only [getProp_obj, okBind, hst]
      rfl
    · rw [getD_obj, hst] at hl'
      exact JSVal.noConfusion hl'

/-- Claim C5 — parent-id convergence: on an array of plain-object tasks (with
primitive ids) whose subtasks arrays contain plain-object subtasks,
`ensureSubtaskParentIds` succeeds, keeps the task list length and every task
unchanged except its `subtasks`, and rewrites each subtasks array entrywise so
that every subtask's `parentTaskId` is strictly equal to its task's `id`,
while each subtask is otherwise unchanged — so order of tasks and subtasks is
preserved exactly. -/
theorem ensureSubtaskParentIds_convergence (ts : List JSVal)
    (hobj : ∀ t ∈ ts, isObj t = true)
    (hid : ∀ t ∈ ts, isPrim (getD t "id") = true)
    (hsub : ∀ t ∈ ts, ∀ l, getD t "subtasks" = .arr l → ∀ s ∈ l, isObj s = true) :
    ∃ rs, ensureSubtaskParentIds (.arr ts) = .ok (.arr rs) ∧
      rs.length = ts.length ∧
      ∀ i (h1 : i < ts.length) (h2 : i < rs.length),
        stripKey "subtasks" (rs.get ⟨i, h2⟩) = stripKey "subtasks" (ts.get ⟨i, h1⟩) ∧
        ∀ l', getD (rs.get ⟨i, h2⟩) "subtasks" = .arr l' →
          ∃ l, getD (ts.get ⟨i, h1⟩) "subtasks" = .arr l ∧ l'.length = l.length ∧
            ∀ j (hj : j < l'.length) (hj2 : j < l.length),
              strictEq (getD (l'.get ⟨j, hj⟩) "parentTaskId")
                (getD (rs.get ⟨i, h2⟩) "id") = true ∧
              stripKey "parentTaskId" (l'.get ⟨j, hj⟩) =
                stripKey "parentTaskId" (l.get ⟨j, hj2⟩) := by
  have hpt : ∀ t ∈ ts, ∃ r, fixTaskParentIds t = .ok r ∧
      (stripKey "subtasks" r = stripKey "subtasks" t ∧
       getD r "id" = getD t "id" ∧
       ∀ l', getD r "subtasks" = .arr l' →
         ∃ l, getD t "subtasks" = .arr l ∧ l'.length = l.length ∧
           ∀ j (hj : j < l'.length) (hj2 : j < l.length),
             strictEq (getD (l'.get ⟨j, hj⟩) "parentTaskId") (getD t "id") = true ∧
             stripKey "parentTaskId" (l'.get ⟨j, hj⟩) =
               stripKey "parentTaskId" (l.get ⟨j, hj2⟩)) := by
    intro t ht
    obtain ⟨r, h1, h2, h3, h4⟩ :=
      fixTaskParentIds_detail t (hobj t ht) (hid t ht) (hsub t ht)
    exact ⟨r, h1, h2, h3, h4⟩
  obtain ⟨rs, hmap, hlen, hidx, _⟩ := mapE_ok_pointwise hpt
  refine ⟨rs, ?_, hlen, ?_⟩
  · unfold ensureSubtaskParentIds
    simp only [hmap, okBind, pureE]
  · intro i h1 h2
    obtain ⟨hc1, hc2, hc3⟩ := hidx i h1 h2
    refine ⟨hc1, ?_⟩
    intro l' hl'
    obtain ⟨l, hleq, hlen2, hjs⟩ := hc3 l' hl'
    refine ⟨l, hleq, hlen2, ?_⟩
    intro j hj hj2
    obtain ⟨hj1, hj2'⟩ := hjs j hj hj2
    rw [hc2]
    exact ⟨hj1, hj2'⟩

/-- Witness for claim C5: a concrete task with three subtasks (missing, wrong,
and correct `parentTaskId`) satisfying the convergence statement. -/
theorem ensureSubtaskParentIds_convergence_witness :
    (∀ t ∈ convergenceDemoTasks, isObj t = true) ∧
    (∀ t ∈ convergenceDemoTasks, isPrim (getD t "id") = true) ∧
    (∀ t ∈ convergenceDemoTasks, ∀ l, getD t "subtasks" = .arr l →
      ∀ s ∈ l, isObj s = true) ∧
    (∃ rs, ensureSubtaskParentIds (.arr convergenceDemoTasks) = .ok (.arr rs) ∧
      rs.length = convergenceDemoTasks.length ∧
      ∀ i (h1 : i < convergenceDemoTasks.length) (h2 : i < rs.length),
        stripKey "subtasks" (rs.get ⟨i, h2⟩) =
          stripKey "subtasks" (convergenceDemoTasks.get ⟨i, h1⟩) ∧
        ∀ l', getD (rs.get ⟨i, h2⟩) "subtasks" = .arr l' →
          ∃ l, getD (convergenceDemoTasks.get ⟨i, h1⟩) "subtasks" = .arr l ∧
            l'.length = l.length ∧
            ∀ j (hj : j < l'.length) (hj2 : j < l.length),
              strictEq (getD (l'.get ⟨j, hj⟩) "parentTaskId")
                (getD (rs.get ⟨i, h2⟩) "id") = true ∧
              stripKey "parentTaskId" (l'.get ⟨j, hj⟩) =
                stripKey "parentTaskId" (l.get ⟨j, hj2⟩)) :=
  have h1 : ∀ t ∈ convergenceDemoTasks, isObj t = true := by
    intro t ht
    rcases List.mem_singleton.mp ht with rfl
    rfl
  have h2 : ∀ t ∈ convergenceDemoTasks, isPrim (getD t "id") = true := by
    intro t ht
    rcases List.mem_singleton.mp ht with rfl
    rfl
  have h3 : ∀ t ∈ convergenceDemoTasks, ∀ l, getD t "subtasks" = .arr l →
      ∀ s ∈ l, isObj s = true := by
    intro t ht l hl s hs
    rcases List.mem_singleton.mp ht with rfl
    have hl2 : JSVal.arr [
        .obj [("id", .num 1), ("title", .str "a")],
        .obj [("id", .num 2), ("title", .str "b"), ("parentTaskId", .num 999)],
        .obj [("id", .num 3), ("title", .str "c"), ("parentTaskId", .num 7)]] =
        .arr l := hl
    injection hl2 with hl3
    subst hl3
    rcases List.mem_cons.mp hs with rfl | hs2
    · rfl
    · rcases List.mem_cons.mp hs2 with rfl | hs3
      · rfl
      · rcases List.mem_cons.mp hs3 with rfl | hs4
        · rfl
        · exact absurd hs4 (by simp)
  ⟨h1, h2, h3, ensureSubtaskParentIds_convergence convergenceDemoTasks h1 h2 h3⟩

/-- Claim C7 (amended) — in the customFields normalization over a task tree
(`ensureCustomFieldsOnTasks`), a task whose `subtasks` property is wholly
absent is treated exactly like one whose `subtasks` is `null`: every falsy
`subtasks` value is converted to `[]` in the output (the absent case is NOT
passed through with `subtasks` still absent). -/
theorem ensureCustomFieldsOnTasks_falsy_subtasks_become_empty (ts : List JSVal)
    (h : ∀ t ∈ ts, WellFormedTask t) :
    ∃ rs, ensureCustomFieldsOnTasks (.arr ts) = .ok (.arr rs) ∧
      rs.length = ts.length ∧
      ∀ i (h1 : i < ts.length) (h2 : i < rs.length),
        truthy (getD (ts.get ⟨i, h1⟩) "subtasks") = false →
          getD (rs.get ⟨i, h2⟩) "subtasks" = .arr [] := by
  have hpt : ∀ t ∈ ts, ∃ r, ensureTaskStep t = .ok r ∧
      (truthy (getD t "subtasks") = false → getD r "subtasks" = .arr []) := by
    intro t ht
    obtain ⟨fs, cfv, l2, rfl, hcfv, hstep, hempty, _⟩ := ensureTaskStep_detail t (h t ht)
    refine ⟨_, hstep, ?_⟩
    intro hfalsy
    rw [getD_obj] at hfalsy
    rw [getD_obj, objLookup_objSet_self, hempty hfalsy]
  obtain ⟨rs, hmap, hlen, hidx, _⟩ := mapE_ok_pointwise hpt
  refine ⟨rs, ?_, hlen, hidx⟩
  unfold ensureCustomFieldsOnTasks
  simp only [hmap, okBind, pureE]

/-- Witness for claim C7 (amended): a task with no `subtasks` property and a
task with `subtasks: null` both come out with `subtasks: []`. -/
theorem ensureCustomFieldsOnTasks_falsy_subtasks_become_empty_witness :
    (∀ t ∈ [noSubtasksTask, nullSubtasksTask], WellFormedTask t) ∧
    (∃ rs, ensureCustomFieldsOnTasks (.arr [noSubtasksTask, nullSubtasksTask]) =
        .ok (.arr rs) ∧
      rs.length = [noSubtasksTask, nullSubtasksTask].length ∧
      ∀ i (h1 : i < [noSubtasksTask, nullSubtasksTask].length) (h2 : i < rs.length),
        truthy (getD ([noSubtasksTask, nullSubtasksTask].get ⟨i, h1⟩) "subtasks") = false →
          getD (rs.get ⟨i, h2⟩) "subtasks" = .arr []) :=
  have hwf : ∀ t ∈ [noSubtasksTask, nullSubtasksTask], WellFormedTask t := by
    intro t ht
    rcases List.mem_cons.mp ht with rfl | ht2
    · exact ⟨rfl, fun hc => absurd hc (by decide)⟩
    · rcases List.mem_cons.mp ht2 with rfl | ht3
      · exact ⟨rfl, fun hc => absurd hc (by decide)⟩
      · exact absurd ht3 (by simp)
  ⟨hwf, ensureCustomFieldsOnTasks_falsy_subtasks_become_empty _ hwf⟩

theorem ensureTaskStep_idem (t : JSVal) (h : WellFormedTask t) :
    ∃ r, ensureTaskStep t = .ok r ∧ ensureTaskStep r = .ok r := by
  obtain ⟨fs, cfv, l2, rfl, hcfv, hstep, _, hl2⟩ := ensureTaskStep_detail t h
  refine ⟨_, hstep, ?_⟩
  have hcf2 : objLookup (objSet (objSet fs "customFields" cfv) "subtasks" (.arr l2))
      "customFields" = cfv := by
    rw [objLookup_objSet_ne _ _ _ _ (by decide), objLookup_objSet_self]
  have hall : ∀ p ∈ objSet (objSet fs "customFields" cfv) "subtasks" (.arr l2),
      p.1 = "customFields" → p.2 = cfv :=
    objSet_all_key_preserved _ _ _ _ _ (objSet_all_key fs "customFields" cfv) (by decide)
  have hany2 : (objSet (objSet fs "customFields" cfv) "subtasks" (.arr l2)).any
      (fun p => p.1 == "customFields") = true :=
    objSet_any_preserved _ _ _ _ (objSet_any_self fs "customFields" cfv) (by decide)
  have hkeep : objSet (objSet (objSet fs "customFields" cfv) "subtasks" (.arr l2))
      "customFields" cfv =
      objSet (objSet fs "customFields" cfv) "subtasks" (.arr l2) :=
    objSet_keep _ _ _ hany2 hall
  have hbase2 : ensureCustomFields (.obj (objSet (objSet fs "customFields" cfv)
      "subtasks" (.arr l2))) = .ok (.obj (objSet (objSet fs "customFields" cfv)
      "subtasks" (.arr l2))) := by
    rw [ensureCustomFields_obj, hcf2, if_pos hcfv, hkeep]
  have hst2 : objLookup (objSet (objSet fs "customFields" cfv) "subtasks" (.arr l2))
      "subtasks" = .arr l2 := objLookup_objSet_self _ _ _
  have hl2map : mapE ensureCustomFields l2 = .ok l2 := by
    apply mapE_ok_of_fix
    intro s hs
    obtain ⟨gs, w, hw, rfl⟩ := hl2 s hs
    exact ensureCustomFields_processed gs w hw
  have hsq : objSet (objSet (objSet fs "customFields" cfv) "subtasks" (.arr l2))
      "subtasks" (.arr l2) =
      objSet (objSet fs "customFields" cfv) "subtasks" (.arr l2) :=
    objSet_objSet_self _ _ _
  unfold ensureTaskStep
  rw [hbase2, okBind, getProp_obj, okBind, hst2, if_pos (truthy_arr l2)]
  simp only [hl2map, okBind, pureE, jsFields, hsq]

/-- Claim C6 — idempotence: applying `ensureTasksBackwardCompatibility` twice
to a well-formed task collection (an array of plain-object tasks whose truthy
`subtasks` are arrays of plain objects) equals applying it once. -/
theorem ensureTasksBackwardCompatibility_idempotent (ts : List JSVal)
    (h : ∀ t ∈ ts, WellFormedTask t) :
    ∃ once, ensureTasksBackwardCompatibility (.arr ts) = .ok once ∧
      ensureTasksBackwardCompatibility once = .ok once := by
  have hpt : ∀ t ∈ ts, ∃ r, ensureTaskStep t = .ok r ∧ ensureTaskStep r = .ok r :=
    fun t ht => ensureTaskStep_idem t (h t ht)
  obtain ⟨rs, hmap, _, _, hmem⟩ := mapE_ok_pointwise hpt
  refine ⟨.arr rs, ?_, ?_⟩
  · unfold ensureTasksBackwardCompatibility ensureCustomFieldsOnTasks
    simp only [hmap, okBind, pureE]
  · have hfix : mapE ensureTaskStep rs = .ok rs := by
      apply mapE_ok_of_fix
      intro r hr
      obtain ⟨a, _, hf⟩ := hmem r hr
      exact hf
    unfold ensureTasksBackwardCompatibility ensureCustomFieldsOnTasks
    simp only [hfix, okBind, pureE]

/-- Witness for claim C6: a concrete well-formed two-task collection on which
one application of the pass is a fixed point of a second application. -/
theorem ensureTasksBackwardCompatibility_idempotent_witness :
    (∀ t ∈ idemDemoTasks, WellFormedTask t) ∧
    (∃ once, ensureTasksBackwardCompatibility (.arr idemDemoTasks) = .ok once ∧
      ensureTasksBackwardCompatibility once = .ok once) :=
  have hwf : ∀ t ∈ idemDemoTasks, WellFormedTask t := by
    intro t ht
    rcases List.mem_cons.mp ht with rfl | ht2
    · refine ⟨rfl, fun _ => ⟨[.obj [("id", .num 1), ("title", .str "S1")]], rfl, ?_⟩⟩
      intro s hs
      rcases List.mem_singleton.mp hs with rfl
      rfl
    · rcases List.mem_cons.mp ht2 with rfl | ht3
      · exact ⟨rfl, fun hc => absurd hc (by decide)⟩
      · exact absurd ht3 (by simp)
  ⟨hwf, ensureTasksBackwardCompatibility_idempotent _ hwf⟩

theorem coreFieldMatches_status_eq (value : String) (t : JSVal) (s : String)
    (h : getD t "status" = .str s) :
    coreFieldMatches "status" (.str value) t = .ok (statusFilterMatch value t) := by
  obtain ⟨fs, rfl⟩ := getD_str_isObj t "status" s h
  have hs : statusOf (.obj fs) = s := statusOf_eq _ _ h
  rw [getD_obj] at h
  unfold coreFieldMatches statusFilterMatch
  rw [hs]
  by_cases hc : strContains value "," = true
  · simp only [jsIncludes, okBind, hc, getProp_obj, h, jsToLowerCase, pureE,
      beq_self_eq_true, if_true]
  · have hcf := bool_eq_false _ hc
    simp only [jsIncludes, okBind, hcf, getProp_obj, h, jsToLowerCase, pureE,
      beq_self_eq_true, if_true, Bool.false_eq_true, if_false]

/-- Claim C2 (amended) — the status core-field filter of `filterTasks` in the
current queryTranslator module is case-insensitive for every task list (whose
tasks carry string statuses) and every string filter value: a value with a
comma is split on `,`, each part trimmed and lower-cased, and a task matches
iff its lower-cased status is in that set; without a comma a task matches iff
the lower-cased status equals the lower-cased value.  (The older copy at
`src/scripts/modules/utils/queryTranslator.js` compares status
case-sensitively instead — see the counterexample.) -/
theorem filterTasks_status_filter_case_insensitive (tasks : List JSVal) (value : String)
    (h : ∀ t ∈ tasks, ∃ s, getD t "status" = .str s) :
    filterTasks tasks (translateQueryParameters [("status", .str value)]) =
      .ok (tasks.filter (statusFilterMatch value)) := by
  have hpt : ∀ t ∈ tasks, coreFieldMatches "status" (.str value) t =
      .ok (statusFilterMatch value t) := by
    intro t ht
    obtain ⟨s, hs⟩ := h t ht
    exact coreFieldMatches_status_eq value t s hs
  have hfe := filterE_eq_filter hpt
  have htr : translateQueryParameters [("status", .str value)] =
      ⟨[("status", .str value)], []⟩ := rfl
  rw [htr]
  unfold filterTasks
  simp only [List.foldlM_cons, List.foldlM_nil, hfe, okBind, pureE]

/-- Witness for claim C2 (amended): the task with status `"Pending"` matches
the filter value `"PENDING"` under the current module's filter. -/
theorem filterTasks_status_filter_case_insensitive_witness :
    (∀ t ∈ [mixedCaseTask], ∃ s, getD t "status" = .str s) ∧
    filterTasks [mixedCaseTask] (translateQueryParameters [("status", .str "PENDING")]) =
      .ok ([mixedCaseTask].filter (statusFilterMatch "PENDING")) ∧
    [mixedCaseTask].filter (statusFilterMatch "PENDING") = [mixedCaseTask] :=
  have hh : ∀ t ∈ [mixedCaseTask], ∃ s, getD t "status" = .str s := by
    intro t ht
    rcases List.mem_singleton.mp ht with rfl
    exact ⟨"Pending", rfl⟩
  ⟨hh, filterTasks_status_filter_case_insensitive _ _ hh, rfl⟩

theorem customFieldMatches_comma (field vs : String) (t : JSVal)
    (hobj : isObj t = true) (hc : strContains vs "," = true) :
    customFieldMatches field (.str vs) t =
      .ok (customExactIn field ((jsSplit vs ',').map (fun p => jsTrim p)) t) := by
  obtain ⟨fs, rfl⟩ := isObj_exists t hobj
  unfold customFieldMatches customExactIn
  rw [getD_obj]
  by_cases hcf : truthy (objLookup fs "customFields") = true
  · have hnn := getProp_of_truthy (objLookup fs "customFields") field hcf
    by_cases hv : truthy (getD (objLookup fs "customFields") field) = true
    · simp only [getProp_obj, okBind, hcf, Bool.not_true, Bool.false_eq_true, if_false,
        hnn, hv, jsIncludes, hc, if_true, pureE, Bool.true_and]
    · have hvf := bool_eq_false _ hv
      simp only [getProp_obj, okBind, hcf, Bool.not_true, Bool.false_eq_true, if_false,
        hnn, hvf, Bool.not_false, if_true, pureE, Bool.false_and]
  · have hcff := bool_eq_false _ hcf
    rw [getD_of_falsy _ field hcff]
    simp only [getProp_obj, okBind, hcff, Bool.not_false, pureE]
    rw [if_pos trivial]
    rfl

theorem customFieldMatches_single (field vs : String) (t : JSVal)
    (hobj : isObj t = true) (hc : strContains vs "," = false)
    (hstr : truthy (getD (getD t "customFields") field) = true →
      isStr (getD (getD t "customFields") field) = true) :
    customFieldMatches field (.str vs) t = .ok (customSingleMatch field vs t) := by
  obtain ⟨fs, rfl⟩ := isObj_exists t hobj
  unfold customFieldMatches customSingleMatch
  rw [getD_obj] at hstr ⊢
  by_cases hcf : truthy (objLookup fs "customFields") = true
  · have hnn := getProp_of_truthy (objLookup fs "customFields") field hcf
    by_cases hv : truthy (getD (objLookup fs "customFields") field) = true
    · obtain ⟨s0, hs0⟩ : ∃ s0, getD (objLookup fs "customFields") field = .str s0 := by
        have := hstr hv
        cases heq : getD (objLookup fs "customFields") field <;>
          rw [heq] at this <;> simp [isStr] at this ⊢
      rw [hs0] at hnn hv ⊢
      by_cases hse : strictEq (.str s0) (.str vs) = true
      · simp only [getProp_obj, okBind, hcf, Bool.not_true, Bool.false_eq_true, if_false,
          hnn, hv, jsIncludes, hc, if_true, hse, pureE, Bool.true_and, Bool.true_or]
      · have hsef := bool_eq_false _ hse
        simp only [getProp_obj, okBind, hcf, Bool.not_true, Bool.false_eq_true, if_false,
          hnn, hv, jsIncludes, hc, hsef, if_true, jsIncludesVal, jsToStr, strOf_str,
          pureE, Bool.true_and, Bool.false_or]
    · have hvf := bool_eq_false _ hv
      simp only [getProp_obj, okBind, hcf, Bool.not_true, Bool.false_eq_true, if_false,
        hnn, hvf, Bool.not_false, if_true, pureE, Bool.false_and]
  · have hcff := bool_eq_false _ hcf
    rw [getD_of_falsy _ field hcff]
    simp only [getProp_obj, okBind, hcff, Bool.not_false, pureE]
    rw [if_pos trivial]
    rfl

/-- Claim C4 (amended) — the comma filter performs exact membership, not the
union of the single-value filters: `filter(tasks,
translate({epic:"EPIC-1234,EPIC-5678"}))` returns exactly, in input order, the
tasks whose `epic` custom-field value is truthy and strictly equal to one of
the two listed values.  This result is a sublist of the union, in input order,
of the two single-value filters, but the union can be strictly larger because
single-value filtering also matches by substring containment. -/
theorem filterTasksScripts_comma_exact_membership (tasks : List JSVal)
    (hobj : ∀ t ∈ tasks, isObj t = true)
    (hstr : ∀ t ∈ tasks, truthy (getD (getD t "customFields") "epic") = true →
      isStr (getD (getD t "customFields") "epic") = true) :
    filterTasksScripts tasks
        (translateQueryParameters [("epic", .str "EPIC-1234,EPIC-5678")]) =
      .ok (tasks.filter (customExactIn "epic" ["EPIC-1234", "EPIC-5678"])) ∧
    filterTasksScripts tasks (translateQueryParameters [("epic", .str "EPIC-1234")]) =
      .ok (tasks.filter (customSingleMatch "epic" "EPIC-1234")) ∧
    filterTasksScripts tasks (translateQueryParameters [("epic", .str "EPIC-5678")]) =
      .ok (tasks.filter (customSingleMatch "epic" "EPIC-5678")) ∧
    (tasks.filter (customExactIn "epic" ["EPIC-1234", "EPIC-5678"])).Sublist
      (tasks.filter (fun t => customSingleMatch "epic" "EPIC-1234" t ||
        customSingleMatch "epic" "EPIC-5678" t)) := by
  have hparts : (jsSplit "EPIC-1234,EPIC-5678" ',').map (fun p => jsTrim p) =
      ["EPIC-1234", "EPIC-5678"] := rfl
  refine ⟨?_, ?_, ?_, ?_⟩
  · have hpt : ∀ t ∈ tasks, customFieldMatches "epic" (.str "EPIC-1234,EPIC-5678") t =
        .ok (customExactIn "epic" ["EPIC-1234", "EPIC-5678"] t) := by
      intro t ht
      rw [customFieldMatches_comma "epic" "EPIC-1234,EPIC-5678" t (hobj t ht) rfl, hparts]
    have hfe := filterE_eq_filter hpt
    have htr : translateQueryParameters [("epic", .str "EPIC-1234,EPIC-5678")] =
        ⟨[], [("epic", .str "EPIC-1234,EPIC-5678")]⟩ := rfl
    rw [htr]
    unfold filterTasksScripts
    simp only [List.foldlM_cons, List.foldlM_nil, okBind, pureE, hfe]
  · have hpt : ∀ t ∈ tasks, customFieldMatches "epic" (.str "EPIC-1234") t =
        .ok (customSingleMatch "epic" "EPIC-1234" t) := by
      intro t ht
      exact customFieldMatches_single "epic" "EPIC-1234" t (hobj t ht) rfl (hstr t ht)
    have hfe := filterE_eq_filter hpt
    have htr : translateQueryParameters [("epic", .str "EPIC-1234")] =
        ⟨[], [("epic", .str "EPIC-1234")]⟩ := rfl
    rw [htr]
    unfold filterTasksScripts
    simp only [List.foldlM_cons, List.foldlM_nil, okBind, pureE, hfe]
  · have hpt : ∀ t ∈ tasks, customFieldMatches "epic" (.str "EPIC-5678") t =
        .ok (customSingleMatch "epic" "EPIC-5678" t) := by
      intro t ht
      exact customFieldMatches_single "epic" "EPIC-5678" t (hobj t ht) rfl (hstr t ht)
    have hfe := filterE_eq_filter hpt
    have htr : translateQueryParameters [("epic", .str "EPIC-5678")] =
        ⟨[], [("epic", .str "EPIC-5678")]⟩ := rfl
    rw [htr]
    unfold filterTasksScripts
    simp only [List.foldlM_cons, List.foldlM_nil, okBind, pureE, hfe]
  · apply List.monotone_filter_right
    intro t hmatch
    unfold customExactIn at hmatch
    unfold customSingleMatch
    rw [Bool.and_eq_true] at hmatch
    obtain ⟨hv, hany⟩ := hmatch
    rw [List.any_eq_true] at hany
    obtain ⟨p, hp, hpe⟩ := hany
    rcases List.mem_cons.mp hp with rfl | hp2
    · apply Bool.or_eq_true_iff.mpr
      left
      rw [Bool.and_eq_true]
      exact ⟨hv, by rw [Bool.or_eq_true_iff]; left; exact hpe⟩
    · rcases List.mem_cons.mp hp2 with rfl | hp3
      · apply Bool.or_eq_true_iff.mpr
        right
        rw [Bool.and_eq_true]
        exact ⟨hv, by rw [Bool.or_eq_true_iff]; left; exact hpe⟩
      · exact absurd hp3 (by simp)

/-- Witness for claim C4 (amended): on the task whose `epic` is
`"EPIC-12345"`, the comma filter returns nothing while the `"EPIC-1234"`
single-value filter matches by substring. -/
theorem filterTasksScripts_comma_exact_membership_witness :
    (∀ t ∈ [epicSupersetTask], isObj t = true) ∧
    (∀ t ∈ [epicSupersetTask], truthy (getD (getD t "customFields") "epic") = true →
      isStr (getD (getD t "customFields") "epic") = true) ∧
    (filterTasksScripts [epicSupersetTask]
        (translateQueryParameters [("epic", .str "EPIC-1234,EPIC-5678")]) =
      .ok ([epicSupersetTask].filter (customExactIn "epic" ["EPIC-1234", "EPIC-5678"])) ∧
    filterTasksScripts [epicSupersetTask]
        (translateQueryParameters [("epic", .str "EPIC-1234")]) =
      .ok ([epicSupersetTask].filter (customSingleMatch "epic" "EPIC-1234")) ∧
    filterTasksScripts [epicSupersetTask]
        (translateQueryParameters [("epic", .str "EPIC-5678")]) =
      .ok ([epicSupersetTask].filter (customSingleMatch "epic" "EPIC-5678")) ∧
    ([epicSupersetTask].filter (customExactIn "epic" ["EPIC-1234", "EPIC-5678"])).Sublist
      ([epicSupersetTask].filter (fun t => customSingleMatch "epic" "EPIC-1234" t ||
        customSingleMatch "epic" "EPIC-5678" t))) :=
  have h1 : ∀ t ∈ [epicSupersetTask], isObj t = true := by
    intro t ht
    rcases List.mem_singleton.mp ht with rfl
    rfl
  have h2 : ∀ t ∈ [epicSupersetTask],
      truthy (getD (getD t "customFields") "epic") = true →
      isStr (getD (getD t "customFields") "epic") = true := by
    intro t ht _
    rcases List.mem_singleton.mp ht with rfl
    rfl
  ⟨h1, h2, filterTasksScripts_comma_exact_membership [epicSupersetTask] h1 h2⟩

theorem createSubtaskIntegrityReport_fields (tasks : List JSVal) (s : IntegritySummary)
    (h : createSubtaskIntegrityReport tasks = .ok s) :
    s.integrityScore = integrityScoreString s.totalSubtasks s.subtasksWithIssues := by
  unfold createSubtaskIntegrityReport at h
  cases hE : integrityAccum tasks with
  | error e =>
    rw [hE, errBind] at h
    simp at h
  | ok acc =>
    rw [hE, okBind, pureE] at h
    injection h with h2
    subst h2
    rfl

theorem jsToFixed1Ratio_healthy (tot : Nat) (h : 0 < tot) :
    jsToFixed1Ratio (tot * 100) tot = "100.0" := by
  unfold jsToFixed1Ratio
  have h1 : tot * 100 * 20 + tot = 2001 * tot := by ring
  rw [h1]
  have h2 : 2001 * tot / (2 * tot) = 1000 := by
    rw [Nat.mul_div_mul_right 2001 2 h]
  rw [h2]
  rfl

/-- Claim C8 — the integrity score of `createSubtaskIntegrityReport` is the
literal `"100%"` (no decimal) when the collection has zero subtasks, and in
the non-zero case it is `(totalSubtasks - subtasksWithIssues) / totalSubtasks
* 100` formatted to one decimal with a `%` suffix — `"100.0%"` when no subtask
has a missing or wrong `parentTaskId`, and `"50.0%"` for 4 subtasks with 2
issues. -/
theorem createSubtaskIntegrityReport_integrityScore_cases (tasks : List JSVal)
    (s : IntegritySummary) (h : createSubtaskIntegrityReport tasks = .ok s) :
    (s.totalSubtasks = 0 → s.integrityScore = "100%") ∧
    (0 < s.totalSubtasks → s.integrityScore =
      jsToFixed1Ratio ((s.totalSubtasks - s.subtasksWithIssues) * 100) s.totalSubtasks
        ++ "%") ∧
    (0 < s.totalSubtasks → s.subtasksWithIssues = 0 → s.integrityScore = "100.0%") ∧
    (s.totalSubtasks = 4 → s.subtasksWithIssues = 2 → s.integrityScore = "50.0%") := by
  have hscore := createSubtaskIntegrityReport_fields tasks s h
  refine ⟨?_, ?_, ?_, ?_⟩
  · intro h0
    rw [hscore, h0]
    rfl
  · intro hpos
    rw [hscore]
    unfold integrityScoreString
    rw [if_pos hpos]
  · intro hpos h0
    rw [hscore, h0]
    unfold integrityScoreString
    rw [if_pos hpos, Nat.sub_zero, jsToFixed1Ratio_healthy _ hpos]
    rfl
  · intro h4 h2
    rw [hscore, h4, h2]
    rfl

/-- Witness for claim C8: the concrete one-task collection with four subtasks,
two of them with a missing or wrong `parentTaskId`, scores `"50.0%"`. -/
theorem createSubtaskIntegrityReport_integrityScore_cases_witness :
    createSubtaskIntegrityReport fourSubtasksTwoIssues = .ok fourSubtasksTwoIssuesSummary ∧
    fourSubtasksTwoIssuesSummary.integrityScore = "50.0%" :=
  ⟨rfl, (createSubtaskIntegrityReport_integrityScore_cases fourSubtasksTwoIssues
      fourSubtasksTwoIssuesSummary rfl).2.2.2 rfl rfl⟩

end TaskMaster
